import Mathlib

/-
Verification of the ldd teaching-driver corpus: a shallow embedding of the
scull family (bare scull, scullp, access policies, pipe), the scullp mmap
fault handler, and the short port/interrupt device, with theorems checking
the natural-language specification against the code.
-/

namespace Ldd

/-- Error numbers surfaced by the drivers, by name. -/
inductive Errno
| EBUSY | ENOTTY | EPERM | EFAULT | EAGAIN | ERESTARTSYS | ENOMEM | EINVAL | ENODEV
deriving DecidableEq

/-! ## Quantum/offset decomposition (scull_read part_010:426-430,
scull_write part_010:482-486, scullp_read part_004:367-382,
scullp_write part_004:456-460) -/

/-- Result of decomposing a device byte offset: list-node index, slot index
inside the node array, byte offset inside the quantum. -/
structure OffsetDecomp where
  item : Nat
  s_pos : Nat
  q_pos : Nat
deriving DecidableEq

/-- The decomposition used by scull_read (part_010:427-430), scull_write
(part_010:483-486) and scullp_read (part_004:369-382):
item = f_pos / (Q*S), rest = f_pos % (Q*S), s_pos = rest / Q,
q_pos = rest % Q. -/
def scull_decompose (quantum qset fpos : Nat) : OffsetDecomp :=
  let itemsize := quantum * qset
  let item := fpos / itemsize
  let rest := fpos % itemsize
  { item := item, s_pos := rest / quantum, q_pos := rest % quantum }

/-- The decomposition written in scullp_write (part_004:457-460).  Note line
460 computes q_pos as rest / quantum, not rest % quantum, so s_pos and q_pos
are the same expression there. -/
def scullp_write_decompose (quantum qset fpos : Nat) : OffsetDecomp :=
  let itemsize := quantum * qset
  let item := fpos / itemsize
  let rest := fpos % itemsize
  { item := item, s_pos := rest / quantum, q_pos := rest / quantum }

/-- Recomposition of a decomposed offset: item*Q*S + s_pos*Q + q_pos. -/
def recompose (quantum qset : Nat) (d : OffsetDecomp) : Nat :=
  d.item * quantum * qset + d.s_pos * quantum + d.q_pos

theorem scull_decompose_recompose (Q S f : Nat) :
    recompose Q S (scull_decompose Q S f) = f := by
  unfold recompose scull_decompose
  have h2 := Nat.div_add_mod f (Q * S)
  have h1 := Nat.div_add_mod (f % (Q * S)) Q
  calc f / (Q * S) * Q * S + f % (Q * S) / Q * Q + f % (Q * S) % Q
      = Q * S * (f / (Q * S)) + (Q * (f % (Q * S) / Q) + f % (Q * S) % Q) := by ring
    _ = Q * S * (f / (Q * S)) + f % (Q * S) := by rw [h1]
    _ = f := h2

/-! ## The bare scull device model (part_010) -/

/-- A quantum: a fixed-size block of byte cells.  A cell is none while it is
uninitialized, because the quantum kmalloc in scull_write (part_010:520) has
no accompanying memset. -/
abbrev Quantum := List (Option Nat)

/-- One node of the quantum-set list (struct scull_qset).  data = none
models a NULL array pointer. -/
structure ScullQset where
  data : Option (List (Option Quantum))
deriving DecidableEq

/-- The bare scull device (struct scull_dev, part_010:299-307).  The linked
list of quantum sets is the data field; [] models a NULL head pointer. -/
structure ScullDev where
  data : List ScullQset
  quantum : Nat
  qset : Nat
  size : Nat
deriving DecidableEq

/-- Modelled from the spec: scull_follow is called by scull_read and
scull_write (part_010:433,489) but its definition is absent from the
repository.  Spec section 4.2: the list is walked exactly item times from
the head, allocating and zero-filling any missing node along the way.  A
zero-filled node has a NULL data pointer.  Allocation always succeeds in
this model. -/
def scull_follow (data : List ScullQset) (item : Nat) : List ScullQset :=
  if item < data.length then data
  else data ++ List.replicate (item + 1 - data.length) ⟨none⟩

/-- Store a run of bytes into a quantum starting at the given cell. -/
def writeCells (q : Quantum) (pos : Nat) (bytes : List Nat) : Quantum :=
  match bytes with
  | [] => q
  | b :: rest => writeCells (q.set pos (some b)) (pos + 1) rest

/-- Outcome of a successful scull_write call. -/
structure ScullWriteOk where
  dev : ScullDev
  fpos : Nat
  retval : Nat
deriving DecidableEq

/-- scull_write (part_010:467-569), allocation- and copy-success path:
decompose the offset, follow the list (allocating), allocate the node array
zero-filled (part_010:499-515) and the quantum without zero fill
(part_010:519-526), clamp the count to the end of the quantum
(part_010:530-532), copy, advance f_pos and update size only when the write
end exceeds it (part_010:549-551). -/
def scull_write (dev : ScullDev) (fpos : Nat) (buf : List Nat) (count : Nat) :
    ScullWriteOk :=
  let quantum := dev.quantum
  let qset := dev.qset
  let itemsize := quantum * qset
  let item := fpos / itemsize
  let rest := fpos % itemsize
  let s_pos := rest / quantum
  let q_pos := rest % quantum
  let data := scull_follow dev.data item
  let node := data.getD item ⟨none⟩
  let arr := node.data.getD (List.replicate qset none)
  let q := match arr.getD s_pos none with
    | some q => q
    | none => List.replicate quantum none
  let count' := min count (quantum - q_pos)
  let q' := writeCells q q_pos (buf.take count')
  let arr' := arr.set s_pos (some q')
  let data' := data.set item ⟨some arr'⟩
  let fpos' := fpos + count'
  let size' := if dev.size < fpos' then fpos' else dev.size
  ⟨{ dev with data := data', size := size' }, fpos', count'⟩

/-- Outcome of a scull_read call on the non-error path. -/
structure ScullReadRes where
  retval : Nat
  fpos : Nat
  out : List (Option Nat)
  dev : ScullDev
deriving DecidableEq

/-- scull_read (part_010:398-460), lock- and copy-success path: end of data
when f_pos is at or past size (part_010:417-418), clamp to remaining size
(part_010:422-423), decompose, follow, return 0 on a missing node array or
missing quantum (part_010:436-437), clamp to the end of the quantum and
copy out (part_010:440-455). -/
def scull_read (dev : ScullDev) (fpos : Nat) (count : Nat) : ScullReadRes :=
  if fpos ≥ dev.size then ⟨0, fpos, [], dev⟩
  else
    let count := if fpos + count > dev.size then dev.size - fpos else count
    let quantum := dev.quantum
    let qset := dev.qset
    let itemsize := quantum * qset
    let item := fpos / itemsize
    let rest := fpos % itemsize
    let s_pos := rest / quantum
    let q_pos := rest % quantum
    let data := scull_follow dev.data item
    let node := data.getD item ⟨none⟩
    let dev' := { dev with data := data }
    match node.data with
    | none => ⟨0, fpos, [], dev'⟩
    | some arr =>
      match arr.getD s_pos none with
      | none => ⟨0, fpos, [], dev'⟩
      | some q =>
        let count := if count > quantum - q_pos then quantum - q_pos else count
        ⟨count, fpos + count, (q.drop q_pos).take count, dev'⟩

/-- scull_trim (part_010:315-339).  The C loop is
for(dptr = dev->data; dptr; dptr = next) with body freeing dptr->data[i]
and dptr->data only; unlike scullp_trim (part_004:671-677) the body never
assigns next = dptr->next and never frees the node dptr itself.  After the
first iteration the loop update dptr = next therefore reads the
uninitialized local next; the model returns none for that undefined read.
When the list is empty the loop body never runs and the field resets at
part_010:334-337 are reached. -/
def scull_trim (scull_quantum scull_qset : Nat) (dev : ScullDev) :
    Option ScullDev :=
  match dev.data with
  | [] => some { dev with size := 0, quantum := scull_quantum,
                          qset := scull_qset, data := [] }
  | _ :: _ => none

/-! ## The scullp device model (part_004) -/

/-- One node of the scullp list.  In scullp the device structure itself is
the first list node (struct scullp_dev holds data and next).  The data
array slots hold page-block identifiers; none models a NULL pointer. -/
structure ScullpNode where
  data : Option (List (Option Nat))
deriving DecidableEq

/-- The scullp device (scullp.h fields used by part_004): the node list
starts with the device head node itself and follows the next pointers. -/
structure ScullpDev where
  nodes : List ScullpNode
  order : Nat
  qset : Nat
  size : Nat
  vmas : Nat
deriving DecidableEq

/-- The inner freeing loop of scullp_trim (part_004:650-659): for each of
the qset slots of a node array, pass the non-NULL entries to free_pages.
Returns the freed page blocks in order; a NULL array frees nothing. -/
def scullp_qset_free (data : Option (List (Option Nat))) (qset : Nat) :
    List Nat :=
  match data with
  | none => []
  | some arr => (List.range qset).filterMap (fun i => arr.getD i none)

/-- Outcome of a successful scullp_trim: the trimmed device, the page
blocks passed to free_pages, and the number of list nodes passed to
kfree. -/
structure ScullpTrimOk where
  dev : ScullpDev
  freedQuanta : List Nat
  freedNodes : Nat
deriving DecidableEq

/-- scullp_trim (part_004:629-686): refuses with EBUSY while there are
active mappings (part_004:636-638); otherwise walks the list freeing every
non-NULL quantum of each node (part_004:648-659), then the node array
(part_004:667-668), then the node itself unless it is the device head
(part_004:671-677, using next = dptr->next saved before the free), and
finally resets size, qset, order and the next pointer to the configured
defaults (part_004:681-685). -/
def scullp_trim (scullp_qset scullp_order : Nat) (dev : ScullpDev) :
    Except Errno ScullpTrimOk :=
  if dev.vmas ≠ 0 then .error .EBUSY
  else
    let freedQ := dev.nodes.foldl
      (fun acc n => acc ++ scullp_qset_free n.data dev.qset) []
    let freedN := dev.nodes.length - 1
    .ok ⟨{ nodes := [⟨none⟩], order := scullp_order, qset := scullp_qset,
           size := 0, vmas := dev.vmas }, freedQ, freedN⟩

/-- scullp_follow (part_004:300-324): walk n times from the head,
allocating a zero-filled node (NULL data, NULL next) whenever the next
pointer is NULL.  Allocation always succeeds in this model. -/
def scullp_follow (nodes : List ScullpNode) (n : Nat) : List ScullpNode :=
  if n < nodes.length then nodes
  else nodes ++ List.replicate (n + 1 - nodes.length) ⟨none⟩

/-- scullp_read (part_004:334-429), lock- and copy-success path, returning
(bytes read, new f_pos): nothing to read when f_pos is strictly past size
(part_004:360, a strict comparison), clamp to remaining size
(part_004:363-365), decompose (part_004:369-382), follow, return 0 on a
NULL node array or NULL quantum (part_004:390-400), clamp to the end of
the quantum and copy out (part_004:407-424). -/
def scullp_read (PAGE_SIZE : Nat) (dev : ScullpDev) (fpos count : Nat) :
    Nat × Nat :=
  let quantum := PAGE_SIZE <<< dev.order
  let qset := dev.qset
  let itemsize := quantum * qset
  if fpos > dev.size then (0, fpos)
  else
    let count := if fpos + count > dev.size then dev.size - fpos else count
    let item := fpos / itemsize
    let rest := fpos % itemsize
    let s_pos := rest / quantum
    let q_pos := rest % quantum
    let nodes := scullp_follow dev.nodes item
    let node := nodes.getD item ⟨none⟩
    match node.data with
    | none => (0, fpos)
    | some arr =>
      match arr.getD s_pos none with
      | none => (0, fpos)
      | some _ =>
        let count := if count > quantum - q_pos then quantum - q_pos else count
        (count, fpos + count)

/-- Outcome of a successful scullp_write call. -/
structure ScullpWriteOk where
  dev : ScullpDev
  fpos : Nat
  retval : Nat
deriving DecidableEq

/-- scullp_write (part_004:440-535), allocation- and copy-success path:
quantum = PAGE_SIZE shifted left by order (part_004:446), the
decomposition at part_004:457-460 (including the line-460 slip that
computes q_pos as rest / quantum), follow the list allocating zero-filled
nodes (part_004:466), allocate the node array zero-filled
(part_004:477-493), allocate the page block with __get_free_pages and
zero-fill it when the slot is empty (part_004:497-509; newPage stands for
the address returned, page content is not tracked), clamp the count to
the end of the quantum (part_004:513-515), copy, advance f_pos
(part_004:522) and update size only when the write end exceeds it
(part_004:525-527). -/
def scullp_write (PAGE_SIZE : Nat) (dev : ScullpDev)
    (fpos count newPage : Nat) : ScullpWriteOk :=
  let quantum := PAGE_SIZE <<< dev.order
  let qset := dev.qset
  let itemsize := quantum * qset
  let item := fpos / itemsize
  let rest := fpos % itemsize
  let s_pos := rest / quantum
  let q_pos := rest / quantum
  let nodes := scullp_follow dev.nodes item
  let node := nodes.getD item ⟨none⟩
  let arr := node.data.getD (List.replicate qset none)
  let slot := match arr.getD s_pos none with
    | some p => p
    | none => newPage
  let arr' := arr.set s_pos (some slot)
  let nodes' := nodes.set item ⟨some arr'⟩
  let count' := min count (quantum - q_pos)
  let fpos' := fpos + count'
  let size' := if dev.size < fpos' then fpos' else dev.size
  ⟨{ dev with nodes := nodes', size := size' }, fpos', count'⟩

/-- A concrete bare-scull device: one list node holding one allocated
quantum of two written bytes. -/
def scullDev1 : ScullDev :=
  { data := [⟨some [some [some 7, some 8]]⟩], quantum := 2, qset := 1,
    size := 2 }

/-! ## Helper lemmas for the trim theorems -/

theorem foldl_append_flatten {α β : Type} (g : α → List β) :
    ∀ (l : List α) (acc : List β),
      l.foldl (fun acc n => acc ++ g n) acc = acc ++ (l.map g).flatten := by
  intro l
  induction l with
  | nil => intro acc; simp
  | cons a t ih => intro acc; simp [ih, List.append_assoc]

theorem range_filterMap_getD (arr : List (Option Nat)) :
    (List.range arr.length).filterMap (fun i => arr.getD i none)
      = arr.filterMap id := by
  induction arr with
  | nil => simp
  | cons a t ih =>
    cases a with
    | none =>
      simpa [List.range_succ_eq_map, List.filterMap_cons, List.filterMap_map,
             Function.comp_def, List.getD_cons_zero, List.getD_cons_succ]
        using ih
    | some b =>
      simpa [List.range_succ_eq_map, List.filterMap_cons, List.filterMap_map,
             Function.comp_def, List.getD_cons_zero, List.getD_cons_succ]
        using ih

/-! ## Claim theorems C1-C3 -/

/-- Claim C1: for configured Q > 0 and S > 0 the decomposition used by
scull_read, scull_write and scullp_read recomposes to f_pos via
item*Q*S + s_pos*Q + q_pos, and Q=4000, S=1000, f_pos=4004001 yields
item=1, s_pos=1, q_pos=1.  But the claim that every read/write path uses
exactly this decomposition fails: scullp_write (part_004:460) computes
q_pos as rest / quantum instead of rest % quantum, so at f_pos = 2 it
addresses byte 0 of the quantum and its decomposition recomposes to 0,
not 2. -/
theorem scull_offset_decomposition_spec (Q S f : Nat)
    (hQ : 0 < Q) (hS : 0 < S) :
    recompose Q S (scull_decompose Q S f) = f
  ∧ scull_decompose 4000 1000 4004001 = ⟨1, 1, 1⟩
  ∧ (scullp_write_decompose 4000 1000 2).q_pos = 0
  ∧ recompose 4000 1000 (scullp_write_decompose 4000 1000 2) = 0 :=
  ⟨scull_decompose_recompose Q S f, by decide, by decide, by decide⟩

theorem scull_offset_decomposition_spec_witness :
    recompose 7 3 (scull_decompose 7 3 23) = 23 :=
  (scull_offset_decomposition_spec 7 3 23 (by decide) (by decide)).1

/-- Claim C2: the claim says trim frees every quantum, then every array
block, then every list node except the head, resets the configured
defaults, terminates, is idempotent, and a read at offset 0 after trim
returns 0 bytes.  The scullp_trim code does all of this, proved in the
last three conjuncts.  The scull_trim code (part_010:315-339) does not:
its loop never assigns next and never frees a list node, so on any device
whose list is non-empty the loop update dptr = next reads an uninitialized
variable and trim never reaches a defined final state (first two
conjuncts, the second at the concrete device scullDev1). -/
theorem scull_scullp_trim_spec (q s dq dor PS c : Nat)
    (sdev : ScullDev) (pdev : ScullpDev) :
    (sdev.data ≠ [] → scull_trim q s sdev = none)
  ∧ scull_trim 4000 1000 scullDev1 = none
  ∧ (pdev.vmas = 0 →
      (∀ n ∈ pdev.nodes, ∀ arr, n.data = some arr → arr.length = pdev.qset) →
      scullp_trim dq dor pdev
        = .ok ⟨⟨[⟨none⟩], dor, dq, 0, 0⟩,
               ((pdev.nodes.map (fun n => (n.data.getD []).filterMap id)).flatten),
               pdev.nodes.length - 1⟩)
  ∧ scullp_trim dq dor ⟨[⟨none⟩], dor, dq, 0, 0⟩
      = .ok ⟨⟨[⟨none⟩], dor, dq, 0, 0⟩, [], 0⟩
  ∧ scullp_read PS ⟨[⟨none⟩], dor, dq, 0, 0⟩ 0 c = (0, 0) := by
  refine ⟨?_, by decide, ?_, ?_, ?_⟩
  · intro h
    unfold scull_trim
    cases hd : sdev.data with
    | nil => exact absurd hd h
    | cons a t => rfl
  · intro hv hwf
    unfold scullp_trim
    rw [if_neg (by simp [hv])]
    have hfold := foldl_append_flatten
      (fun n : ScullpNode => scullp_qset_free n.data pdev.qset) pdev.nodes []
    have hmap : pdev.nodes.map (fun n => scullp_qset_free n.data pdev.qset)
        = pdev.nodes.map (fun n => (n.data.getD []).filterMap id) := by
      apply List.map_congr_left
      intro n hn
      cases hdata : n.data with
      | none => simp [scullp_qset_free]
      | some arr =>
        have hlen := hwf n hn arr hdata
        simp only [scullp_qset_free, Option.getD_some]
        rw [← hlen]
        exact range_filterMap_getD arr
    simp only [hfold, hmap, List.nil_append, hv]
  · simp [scullp_trim, scullp_qset_free]
  · simp [scullp_read, scullp_follow, Nat.zero_div, Nat.zero_mod]

theorem scull_scullp_trim_spec_witness :
    scullp_trim 3 0 ⟨[⟨some [some 11, none, some 12]⟩, ⟨none⟩], 1, 3, 5, 0⟩
      = .ok ⟨⟨[⟨none⟩], 0, 3, 0, 0⟩, [11, 12], 1⟩ := by
  have h := (scull_scullp_trim_spec 1 1 3 0 4096 1 scullDev1
      ⟨[⟨some [some 11, none, some 12]⟩, ⟨none⟩], 1, 3, 5, 0⟩).2.2.1
      rfl (by decide)
  simpa using h

/-- Claim C3: for both the bare scull and the scullp device, the size
field never shrinks on a write, equals the maximum of the previous size
and the write-end offset (so it extends exactly when the write end
exceeds the previous size and records the highest offset successfully
written), and a write of M < size bytes at offset 0 leaves size
unchanged; a scull read never changes it (so only trim resets it).  The
first four conjuncts settle scull_write (part_010:543-564) and
scull_read, the last three scullp_write (part_004:522-527). -/
theorem scull_write_size_monotone (dev : ScullDev) (fpos count : Nat)
    (buf : List Nat) (PAGE_SIZE : Nat) (pdev : ScullpDev)
    (pfpos pcount newPage : Nat) :
    dev.size ≤ (scull_write dev fpos buf count).dev.size
  ∧ (scull_write dev fpos buf count).dev.size
      = max dev.size (fpos + (scull_write dev fpos buf count).retval)
  ∧ (∀ (M : Nat) (buf2 : List Nat), M < dev.size →
      (scull_write dev 0 buf2 M).dev.size = dev.size)
  ∧ (scull_read dev fpos count).dev.size = dev.size
  ∧ pdev.size ≤ (scullp_write PAGE_SIZE pdev pfpos pcount newPage).dev.size
  ∧ (scullp_write PAGE_SIZE pdev pfpos pcount newPage).dev.size
      = max pdev.size
          (pfpos + (scullp_write PAGE_SIZE pdev pfpos pcount newPage).retval)
  ∧ (∀ (M np2 : Nat), M < pdev.size →
      (scullp_write PAGE_SIZE pdev 0 M np2).dev.size = pdev.size) := by
  refine ⟨?_, ?_, ?_, ?_, ?_, ?_, ?_⟩
  · simp only [scull_write]
    split
    · omega
    · omega
  · simp only [scull_write]
    split <;> omega
  · intro M buf2 hM
    have hmin : min M (dev.quantum - 0 % dev.quantum) ≤ M := Nat.min_le_left _ _
    simp only [scull_write, Nat.zero_mod, Nat.zero_div, Nat.zero_add]
    rw [if_neg]
    omega
  · simp only [scull_read]
    split
    · rfl
    · split
      · rfl
      · split <;> rfl
  · simp only [scullp_write]
    split
    · omega
    · omega
  · simp only [scullp_write]
    split <;> omega
  · intro M np2 hM
    have hmin : min M (PAGE_SIZE <<< pdev.order - 0 / (PAGE_SIZE <<< pdev.order))
        ≤ M := Nat.min_le_left _ _
    simp only [scullp_write, Nat.zero_mod, Nat.zero_div, Nat.zero_add]
    rw [if_neg]
    omega

theorem scull_write_size_monotone_witness :
    (scull_write scullDev1 0 [9] 1).dev.size = scullDev1.size
  ∧ (scullp_write 4096 ⟨[⟨none⟩], 0, 1, 5, 0⟩ 0 1 7).dev.size
      = (⟨[⟨none⟩], 0, 1, 5, 0⟩ : ScullpDev).size :=
  ⟨(scull_write_size_monotone scullDev1 0 1 [42] 4096
      ⟨[⟨none⟩], 0, 1, 5, 0⟩ 0 1 7).2.2.1 1 [9] (by decide),
   (scull_write_size_monotone scullDev1 0 1 [42] 4096
      ⟨[⟨none⟩], 0, 1, 5, 0⟩ 0 1 7).2.2.2.2.2.2 1 7 (by decide)⟩

/-! ## The scull ioctl command protocol (part_000:188-297)

scull.h is not in the repository, so the command-number encoding and the
command set are modelled from the spec (section 6 and part_000:140-174):
a 32-bit command packs, from least to most significant, an 8-bit sequence
number, an 8-bit type tag, a 14-bit size and a 2-bit direction, with
direction bits 00 none, 01 read, 10 write (application view); the commands
for one parameter occupy consecutive sequence numbers starting at 0 in the
order reset, set, tell, get, query, exchange, shift. -/

/-- Modelled from the spec: sequence-number field of a command (8 bits at
the bottom). -/
def ioc_nr (cmd : Nat) : Nat := cmd % 256

/-- Modelled from the spec: type (magic) field of a command (8 bits above
the sequence number). -/
def ioc_type (cmd : Nat) : Nat := cmd / 256 % 256

/-- Modelled from the spec: size field of a command (14 bits). -/
def ioc_size (cmd : Nat) : Nat := cmd / 65536 % 16384

/-- Modelled from the spec: direction field of a command (2 bits at the
top, 1073741824 = 2 to the 30th). -/
def ioc_dir (cmd : Nat) : Nat := cmd / 1073741824 % 4

/-- Modelled from the spec: no-transfer direction. -/
def IOC_NONE : Nat := 0

/-- Modelled from the spec: application-reads direction bit. -/
def IOC_READ : Nat := 1

/-- Modelled from the spec: application-writes direction bit. -/
def IOC_WRITE : Nat := 2

/-- Modelled from the spec: the command-number constructor underlying the
encoding macros. -/
def ioc (dir typ nr size : Nat) : Nat :=
  nr + typ * 256 + size * 65536 + dir * 1073741824

/-- Size of the int argument used by the pointer commands. -/
def sizeof_int : Nat := 4

/-- Modelled from the spec: reset command, no argument, sequence 0. -/
def SCULL_IOCRESET (magic : Nat) : Nat := ioc IOC_NONE magic 0 0

/-- Modelled from the spec: set-by-pointer command, sequence 1. -/
def SCULL_IOCSQUANTUM (magic : Nat) : Nat := ioc IOC_WRITE magic 1 sizeof_int

/-- Modelled from the spec: tell-by-value command, sequence 2. -/
def SCULL_IOCTQUANTUM (magic : Nat) : Nat := ioc IOC_NONE magic 2 0

/-- Modelled from the spec: get-by-pointer command, sequence 3. -/
def SCULL_IOCGQUANTUM (magic : Nat) : Nat := ioc IOC_READ magic 3 sizeof_int

/-- Modelled from the spec: query-by-return command, sequence 4. -/
def SCULL_IOCQQUANTUM (magic : Nat) : Nat := ioc IOC_NONE magic 4 0

/-- Modelled from the spec: exchange-by-pointer command, sequence 5. -/
def SCULL_IOCXQUANTUM (magic : Nat) : Nat :=
  ioc (IOC_READ + IOC_WRITE) magic 5 sizeof_int

/-- Modelled from the spec: shift (tell plus query) command, sequence 6. -/
def SCULL_IOCHQUANTUM (magic : Nat) : Nat := ioc IOC_NONE magic 6 0

/-- The tunable parameters the ioctl commands act on (the global
scull_quantum and scull_qset). -/
structure ScullParams where
  quantum : Int
  qset : Int
deriving DecidableEq

/-- What an ioctl call hands back: a named error or a return value. -/
inductive IoctlRet
| err (e : Errno)
| ret (v : Int)
deriving DecidableEq

/-- Full outcome of an ioctl call: return, final parameters, and the value
stored through the user pointer if any. -/
structure IoctlRes where
  result : IoctlRet
  params : ScullParams
  userWrite : Option Int
deriving DecidableEq

/-- The scull ioctl handler (part_000:190-297): reject a foreign type tag,
then a sequence number above the maximum, with ENOTTY
(part_000:198-199); verify the user address for the decoded direction,
failing with EFAULT (part_000:206-211); then dispatch the quantum command
set (part_000:245-295), where set, tell, exchange and shift require
CAP_SYS_ADMIN and fail with EPERM before touching anything
(part_000:253-254,260-261,276-277,286-287).  capSysAdmin abstracts
capable(CAP_SYS_ADMIN), accessOk the access_ok verification, arg the raw
argument, userVal the int read through the pointer by __get_user. -/
def scull_ioctl (magic maxnr : Nat) (capSysAdmin accessOk : Bool)
    (squantum_def sqset_def : Int) (p : ScullParams)
    (cmd : Nat) (arg userVal : Int) : IoctlRes :=
  if ioc_type cmd ≠ magic then ⟨.err .ENOTTY, p, none⟩
  else if ioc_nr cmd > maxnr then ⟨.err .ENOTTY, p, none⟩
  else if ioc_dir cmd &&& IOC_READ ≠ 0 ∧ ¬accessOk then ⟨.err .EFAULT, p, none⟩
  else if ioc_dir cmd &&& IOC_READ = 0 ∧ ioc_dir cmd &&& IOC_WRITE ≠ 0 ∧ ¬accessOk then
    ⟨.err .EFAULT, p, none⟩
  else if cmd = SCULL_IOCRESET magic then
    ⟨.ret 0, { quantum := squantum_def, qset := sqset_def }, none⟩
  else if cmd = SCULL_IOCSQUANTUM magic then
    if ¬capSysAdmin then ⟨.err .EPERM, p, none⟩
    else ⟨.ret 0, { p with quantum := userVal }, none⟩
  else if cmd = SCULL_IOCTQUANTUM magic then
    if ¬capSysAdmin then ⟨.err .EPERM, p, none⟩
    else ⟨.ret 0, { p with quantum := arg }, none⟩
  else if cmd = SCULL_IOCGQUANTUM magic then ⟨.ret 0, p, some p.quantum⟩
  else if cmd = SCULL_IOCQQUANTUM magic then ⟨.ret p.quantum, p, none⟩
  else if cmd = SCULL_IOCXQUANTUM magic then
    if ¬capSysAdmin then ⟨.err .EPERM, p, none⟩
    else ⟨.ret 0, { p with quantum := userVal }, some p.quantum⟩
  else if cmd = SCULL_IOCHQUANTUM magic then
    if ¬capSysAdmin then ⟨.err .EPERM, p, none⟩
    else ⟨.ret p.quantum, { p with quantum := arg }, none⟩
  else ⟨.err .ENOTTY, p, none⟩

theorem ioc_ne_of_rest_ne (magic d1 n1 s1 d2 n2 s2 : Nat)
    (h : n1 + s1 * 65536 + d1 * 1073741824 ≠ n2 + s2 * 65536 + d2 * 1073741824) :
    ioc d1 magic n1 s1 ≠ ioc d2 magic n2 s2 := by
  unfold ioc
  omega

/-- Claim C4: a command whose type tag differs from the assigned magic
fails with ENOTTY regardless of sequence number; a command with the right
magic but a sequence number above the declared maximum fails with ENOTTY;
and each privileged command (set, tell, exchange, shift) issued without
CAP_SYS_ADMIN fails with EPERM leaving the parameters unchanged and
writing nothing to user space. -/
theorem scull_ioctl_validation (magic maxnr : Nat) (cap accessOk : Bool)
    (qd sd : Int) (p : ScullParams) (cmd : Nat) (arg userVal : Int)
    (hm : magic < 256) (hmax : 6 ≤ maxnr) :
    (ioc_type cmd ≠ magic →
      scull_ioctl magic maxnr cap accessOk qd sd p cmd arg userVal
        = ⟨.err .ENOTTY, p, none⟩)
  ∧ (ioc_nr cmd > maxnr →
      scull_ioctl magic maxnr cap accessOk qd sd p cmd arg userVal
        = ⟨.err .ENOTTY, p, none⟩)
  ∧ (∀ c ∈ [SCULL_IOCSQUANTUM magic, SCULL_IOCTQUANTUM magic,
            SCULL_IOCXQUANTUM magic, SCULL_IOCHQUANTUM magic],
      scull_ioctl magic maxnr false true qd sd p c arg userVal
        = ⟨.err .EPERM, p, none⟩) := by
  refine ⟨?_, ?_, ?_⟩
  · intro h
    unfold scull_ioctl
    rw [if_pos h]
  · intro h
    unfold scull_ioctl
    by_cases h1 : ioc_type cmd ≠ magic
    · rw [if_pos h1]
    · rw [if_neg h1, if_pos h]
  · intro c hc
    simp only [List.mem_cons, List.not_mem_nil, or_false] at hc
    rcases hc with hc | hc | hc | hc <;> subst hc <;>
      simp only [scull_ioctl, SCULL_IOCRESET, SCULL_IOCSQUANTUM,
        SCULL_IOCTQUANTUM, SCULL_IOCGQUANTUM, SCULL_IOCQQUANTUM,
        SCULL_IOCXQUANTUM, SCULL_IOCHQUANTUM, ioc, ioc_type, ioc_nr,
        ioc_dir, IOC_NONE, IOC_READ, IOC_WRITE, sizeof_int, not_true,
        and_false, false_and, if_false, Bool.not_eq_true] <;>
      split_ifs <;> first | rfl | omega

theorem scull_ioctl_validation_witness :
    scull_ioctl 107 14 false true 4000 1000 ⟨4000, 1000⟩
      (SCULL_IOCSQUANTUM 107) 0 0 = ⟨.err .EPERM, ⟨4000, 1000⟩, none⟩ :=
  (scull_ioctl_validation 107 14 false true 4000 1000 ⟨4000, 1000⟩
      (SCULL_IOCSQUANTUM 107) 0 0 (by decide) (by decide)).2.2
    (SCULL_IOCSQUANTUM 107) (by simp)

/-! ## Single-open access policy (part_003:45-92) -/

/-- scull_s_open (part_003:55-72): atomic_dec_and_test on the available
counter; when the decremented value is non-zero the counter is restored
with atomic_inc and the open fails with EBUSY, otherwise the open
succeeds.  Returns the error, if any, and the counter after the call. -/
def scull_s_open (available : Int) : Option Errno × Int :=
  let v := available - 1
  if v ≠ 0 then (some .EBUSY, v + 1)
  else (none, v)

/-- scull_s_release (part_003:75-79): atomic_inc releases the device. -/
def scull_s_release (available : Int) : Int := available + 1

/-- Events at the single-open device: an open attempt, or a release by a
current holder. -/
inductive SEvent
| openEv
| releaseEv
deriving DecidableEq

/-- One step of the single-open life cycle on (counter, current holders):
an open runs scull_s_open and adds a holder exactly when it succeeds; a
release runs scull_s_release and removes a holder. -/
def sStep : Int × Nat → SEvent → Int × Nat
  | (a, h), .openEv =>
    match scull_s_open a with
    | (none, a') => (a', h + 1)
    | (some _, a') => (a', h)
  | (a, h), .releaseEv => (scull_s_release a, h - 1)

/-- A trace is valid when every release is issued by a current holder. -/
def sValid : Int × Nat → List SEvent → Bool
  | _, [] => true
  | s, e :: rest =>
    (match e with
     | SEvent.openEv => true
     | SEvent.releaseEv => decide (0 < s.2)) && sValid (sStep s e) rest

/-- Run a trace from the initial state: counter 1 (ATOMIC_INIT(1),
part_003:53), no holders. -/
def sRun (tr : List SEvent) : Int × Nat := tr.foldl sStep (1, 0)

theorem sStep_invariant (tr : List SEvent) :
    ∀ s : Int × Nat, s.1 = 1 - s.2 → s.2 ≤ 1 → sValid s tr = true →
      (tr.foldl sStep s).1 = 1 - (tr.foldl sStep s).2
        ∧ (tr.foldl sStep s).2 ≤ 1 := by
  induction tr with
  | nil => intro s h1 h2 _; exact ⟨h1, h2⟩
  | cons e rest ih =>
    intro s h1 h2 hv
    simp only [sValid, Bool.and_eq_true] at hv
    obtain ⟨hg, hv⟩ := hv
    obtain ⟨a, h⟩ := s
    simp only at h1 h2
    rw [List.foldl_cons]
    cases e with
    | openEv =>
      apply ih
      · simp only [sStep, scull_s_open]
        split_ifs with hcond <;> simp <;> omega
      · simp only [sStep, scull_s_open]
        split_ifs with hcond <;> simp <;> omega
      · exact hv
    | releaseEv =>
      have hh : 0 < h := by simpa using hg
      apply ih
      · simp only [sStep, scull_s_release]; omega
      · simp only [sStep, scull_s_release]; omega
      · exact hv

/-- Claim C5: at the single-open device, a first open succeeds; a second
open before the first release fails with EBUSY and restores the
availability counter; after the holder releases, a new open succeeds; and
along every valid event sequence from the initial state at most one opener
holds the device at any time. -/
theorem scull_single_open_policy (tr : List SEvent) :
    scull_s_open 1 = (none, 0)
  ∧ scull_s_open 0 = (some .EBUSY, 0)
  ∧ scull_s_open (scull_s_release 0) = (none, 0)
  ∧ (sValid (1, 0) tr = true → (sRun tr).2 ≤ 1) := by
  refine ⟨by decide, by decide, by decide, ?_⟩
  intro hv
  exact (sStep_invariant tr (1, 0) (by decide) (by decide) hv).2

theorem scull_single_open_policy_witness :
    (sRun [SEvent.openEv, SEvent.openEv, SEvent.releaseEv, SEvent.openEv]).2 ≤ 1 :=
  (scull_single_open_policy
      [SEvent.openEv, SEvent.openEv, SEvent.releaseEv, SEvent.openEv]).2.2.2
    (by decide)

/-! ## The scull pipe device (src/scull/pipe.c) -/

/-- The pipe circular buffer state: the buffer size and the read and write
cursors as offsets from the buffer start (the rp and wp pointers of
struct scull_pipe, pipe.c:40-50; the end pointer is buffer +
buffersize, pipe.c:130). -/
structure ScullPipe where
  buffersize : Nat
  rp : Nat
  wp : Nat
deriving DecidableEq

/-- spacefree (pipe.c:357-368): buffersize - 1 when the cursors are equal,
otherwise ((rp - wp + buffersize) mod buffersize) - 1. -/
def spacefree (d : ScullPipe) : Int :=
  if d.rp = d.wp then (d.buffersize : Int) - 1
  else ((d.rp : Int) - d.wp + d.buffersize) % d.buffersize - 1

/-- Bytes currently stored in the buffer, measured from the cursors. -/
def pipeUsed (d : ScullPipe) : Int :=
  ((d.wp : Int) - d.rp + d.buffersize) % d.buffersize

theorem int_emod_window (x b : Int) (hb : 0 < b) (h0 : 0 ≤ x)
    (h2 : x < 2 * b) : x % b = if x < b then x else x - b := by
  split_ifs with h
  · exact Int.emod_eq_of_lt h0 h
  · have h3 : (x - b) % b = x - b := Int.emod_eq_of_lt (by omega) (by omega)
    calc x % b = (x - b) % b := (Int.emod_sub_cancel x b).symm
      _ = x - b := h3

/-- Claim C6: for every reachable buffer state (cursors inside the
buffer), spacefree is 0 exactly when writing one more byte would land the
write cursor on the read cursor; a buffer of size at least two is never
simultaneously full and empty; and spacefree always equals
buffersize - 1 - used bytes, so exactly one byte of capacity is
sacrificed. -/
theorem scull_p_spacefree_full_iff (d : ScullPipe)
    (hr : d.rp < d.buffersize) (hw : d.wp < d.buffersize) :
    (spacefree d = 0 ↔ (d.wp + 1) % d.buffersize = d.rp)
  ∧ (2 ≤ d.buffersize → ¬(spacefree d = 0 ∧ d.rp = d.wp))
  ∧ spacefree d = (d.buffersize : Int) - 1 - pipeUsed d := by
  obtain ⟨b, r, w⟩ := d
  simp only [spacefree, pipeUsed] at *
  have hb : 0 < b := by omega
  have hmodw : (w + 1) % b = if w + 1 = b then 0 else w + 1 := by
    split_ifs with h
    · rw [h, Nat.mod_self]
    · exact Nat.mod_eq_of_lt (by omega)
  by_cases hrw : r = w
  · subst hrw
    have hu : ((r : Int) - r + b) % b = 0 := by
      have he : ((r : Int) - r + b) = b := by ring
      rw [he, Int.emod_self]
    simp only [if_pos rfl, eq_self_iff_true, if_true, hu, hmodw]
    refine ⟨?_, ?_, by ring⟩
    · split_ifs with h <;> constructor <;> intro hx <;> omega
    · intro h2 hx
      obtain ⟨hx1, -⟩ := hx
      omega
  · have hA : ((r : Int) - w + b) % b
        = if (r : Int) - w + b < b then (r : Int) - w + b
          else (r : Int) - w + b - b :=
      int_emod_window _ _ (by omega) (by omega) (by omega)
    have hB : ((w : Int) - r + b) % b
        = if (w : Int) - r + b < b then (w : Int) - r + b
          else (w : Int) - r + b - b :=
      int_emod_window _ _ (by omega) (by omega) (by omega)
    simp only [if_neg hrw, hA, hB, hmodw]
    refine ⟨?_, ?_, ?_⟩
    · split_ifs with h1 h2 h2 <;> constructor <;> intro hx <;> omega
    · intro h2 hx
      exact hrw hx.2
    · split_ifs with h1 h2 h2 <;> omega

theorem scull_p_spacefree_full_iff_witness :
    spacefree ⟨10, 3, 2⟩ = 0 ↔ (2 + 1) % 10 = 3 :=
  (scull_p_spacefree_full_iff ⟨10, 3, 2⟩ (by decide) (by decide)).1

/-- Outcome of one wait on the read queue: a pending signal, or a wake-up
after which the reader re-acquires the lock and observes a fresh state. -/
inductive WaitOutcome
| signal
| wake (d : ScullPipe)
deriving DecidableEq

/-- The contiguous readable run of scull_p_read (pipe.c:291-298): up to
the write cursor when it is ahead of the read cursor, otherwise up to the
physical end of the buffer, clamped to the requested count. -/
def readable_run (count : Nat) (d : ScullPipe) : Nat :=
  if d.wp > d.rp then min count (d.wp - d.rp)
  else min count (d.buffersize - d.rp)

/-- The data phase of scull_p_read (pipe.c:291-338): clamp the count to
the contiguous run, copy out, advance the read cursor, and wrap it to the
buffer start when it reaches the end (pipe.c:322-335). -/
def scull_p_read_data (count : Nat) (d : ScullPipe) : Nat × ScullPipe :=
  let n := readable_run count d
  let rp' := d.rp + n
  (n, { d with rp := if rp' = d.buffersize then 0 else rp' })

/-- Result of a scull_p_read call. -/
inductive PReadRes
| eagain
| erestartsys
| blocked
| bytes (n : Nat) (d : ScullPipe) (wokeWriters : Bool)
deriving DecidableEq

/-- scull_p_read (pipe.c:206-348), lock- and copy-success path: while the
buffer is empty (rp == wp, pipe.c:224) the reader drops the lock and
either returns EAGAIN in non-blocking mode (pipe.c:234-236) or sleeps; a
signal wake-up yields ERESTARTSYS (pipe.c:251-270); otherwise the reader
re-acquires the lock and re-tests the freshly observed state
(pipe.c:280-283).  Once data is present it copies the contiguous run,
advances and wraps the read cursor, and wakes blocked writers
(pipe.c:291-347).  The waits list is the sequence of wait outcomes the
process experiences; blocked means it is still asleep after all of
them. -/
def scull_p_read (nonblock : Bool) (count : Nat) :
    ScullPipe → List WaitOutcome → PReadRes
  | d, [] =>
    if d.rp ≠ d.wp then
      .bytes (scull_p_read_data count d).1 (scull_p_read_data count d).2 true
    else if nonblock then .eagain
    else .blocked
  | d, w :: rest =>
    if d.rp ≠ d.wp then
      .bytes (scull_p_read_data count d).1 (scull_p_read_data count d).2 true
    else if nonblock then .eagain
    else
      match w with
      | .signal => .erestartsys
      | .wake d' => scull_p_read nonblock count d' rest

theorem scull_p_read_blocked_of_empty (count : Nat) :
    ∀ (waits : List WaitOutcome) (d : ScullPipe),
      d.rp = d.wp → (∀ d', WaitOutcome.wake d' ∈ waits → d'.rp = d'.wp) →
      WaitOutcome.signal ∉ waits →
      scull_p_read false count d waits = .blocked := by
  intro waits
  induction waits with
  | nil =>
    intro d hd _ _
    simp [scull_p_read, hd]
  | cons e rest ih =>
    intro d hd hall hsig
    cases e with
    | signal => exact absurd (List.mem_cons_self _ _) hsig
    | wake d' =>
      have hd' : d'.rp = d'.wp := hall d' (List.mem_cons_self _ _)
      have h1 : scull_p_read false count d (WaitOutcome.wake d' :: rest)
          = scull_p_read false count d' rest := by
        simp [scull_p_read, hd]
      rw [h1]
      exact ih d' hd' (fun x hx => hall x (List.mem_cons_of_mem _ hx))
        (fun hx => hsig (List.mem_cons_of_mem _ hx))

theorem scull_p_read_bytes_inv (nonblock : Bool) (count : Nat) :
    ∀ (waits : List WaitOutcome) (d : ScullPipe) (n : Nat) (d' : ScullPipe)
      (wk : Bool),
      scull_p_read nonblock count d waits = .bytes n d' wk →
      ∃ s, (s = d ∨ WaitOutcome.wake s ∈ waits) ∧ s.rp ≠ s.wp
        ∧ n = readable_run count s
        ∧ d' = (scull_p_read_data count s).2
        ∧ wk = true := by
  intro waits
  induction waits with
  | nil =>
    intro d n d' wk h
    simp only [scull_p_read] at h
    split_ifs at h with h1
    simp only [PReadRes.bytes.injEq] at h
    exact ⟨d, Or.inl rfl, h1, h.1.symm, h.2.1.symm, h.2.2.symm⟩
  | cons e rest ih =>
    intro d n d' wk h
    by_cases h1 : d.rp ≠ d.wp
    · have hval : scull_p_read nonblock count d (e :: rest)
          = .bytes (scull_p_read_data count d).1 (scull_p_read_data count d).2
              true := by
        simp only [scull_p_read, if_pos h1]
      rw [hval] at h
      simp only [PReadRes.bytes.injEq] at h
      exact ⟨d, Or.inl rfl, h1, h.1.symm, h.2.1.symm, h.2.2.symm⟩
    · have hd : d.rp = d.wp := not_not.mp h1
      by_cases h2 : nonblock = true
      · exfalso
        have heq : scull_p_read nonblock count d (e :: rest) = .eagain := by
          simp [scull_p_read, hd, h2]
        rw [heq] at h
        exact PReadRes.noConfusion h
      · have h2f : nonblock = false := by
          cases nonblock
          · rfl
          · exact absurd rfl h2
        cases e with
        | signal =>
          exfalso
          have heq : scull_p_read nonblock count d
              (WaitOutcome.signal :: rest) = .erestartsys := by
            simp [scull_p_read, hd, h2f]
          rw [heq] at h
          exact PReadRes.noConfusion h
        | wake dnext =>
          have hstep : scull_p_read nonblock count d
              (WaitOutcome.wake dnext :: rest)
              = scull_p_read nonblock count dnext rest := by
            simp [scull_p_read, hd, h2f]
          rw [hstep] at h
          obtain ⟨s, hmem, hs⟩ := ih dnext n d' wk h
          refine ⟨s, ?_, hs⟩
          rcases hmem with hmem | hmem
          · exact Or.inr (hmem ▸ List.mem_cons_self _ _)
          · exact Or.inr (List.mem_cons_of_mem _ hmem)

/-- Claim C7: on an empty pipe a non-blocking read returns EAGAIN
immediately, whatever wait outcomes would have followed; a blocking read
on an empty pipe does not return while every observed state stays empty
and no signal arrives; a pending signal yields ERESTARTSYS; and whenever
the read returns bytes, the count is exactly min(requested, contiguous
run bounded by the write cursor or the physical buffer end) of an
observed non-empty state, the read cursor is advanced by that count and
wrapped at the buffer end, and blocked writers are woken. -/
theorem scull_p_read_blocking_spec (count : Nat) (d : ScullPipe)
    (waits : List WaitOutcome) (nonblock : Bool) :
    (d.rp = d.wp → scull_p_read true count d waits = .eagain)
  ∧ (d.rp = d.wp → (∀ d', WaitOutcome.wake d' ∈ waits → d'.rp = d'.wp) →
      WaitOutcome.signal ∉ waits →
      scull_p_read false count d waits = .blocked)
  ∧ (d.rp = d.wp → ∀ rest, waits = WaitOutcome.signal :: rest →
      scull_p_read false count d waits = .erestartsys)
  ∧ (∀ n d' wk, scull_p_read nonblock count d waits = .bytes n d' wk →
      ∃ s, (s = d ∨ WaitOutcome.wake s ∈ waits) ∧ s.rp ≠ s.wp
        ∧ n = readable_run count s
        ∧ d' = (scull_p_read_data count s).2
        ∧ wk = true) := by
  refine ⟨?_, ?_, ?_, ?_⟩
  · intro hd
    cases waits <;> simp [scull_p_read, hd]
  · intro hd hall hsig
    exact scull_p_read_blocked_of_empty count waits d hd hall hsig
  · intro hd rest hw
    subst hw
    simp [scull_p_read, hd]
  · intro n d' wk h
    exact scull_p_read_bytes_inv nonblock count waits d n d' wk h

theorem scull_p_read_blocking_spec_witness :
    scull_p_read true 3 ⟨8, 5, 5⟩ [WaitOutcome.wake ⟨8, 0, 2⟩] = .eagain :=
  (scull_p_read_blocking_spec 3 ⟨8, 5, 5⟩ [WaitOutcome.wake ⟨8, 0, 2⟩]
      true).1 rfl

/-! ## scullp memory mapping (src/scullp/mmap.c) -/

/-- scullp_mmap (mmap.c:147-165): refuse with ENODEV when the device order
is 0 (mmap.c:151-154); otherwise install the vm operations and count the
new mapping (scullp_vma_open, mmap.c:34-41,163). -/
def scullp_mmap (dev : ScullpDev) : Except Errno ScullpDev :=
  if dev.order = 0 then .error .ENODEV
  else .ok { dev with vmas := dev.vmas + 1 }

/-- The list walk of scullp_vma_nopage (mmap.c:106-109): advance one node
and subtract qset from the page index while the index is at least qset;
stop at the reached node with the remaining index, or run off the list. -/
def scullp_fault_walk (qset : Nat) : List ScullpNode → Nat →
    Option ScullpNode × Nat
  | [], off => (none, off)
  | n :: rest, off =>
    if off ≥ qset then scullp_fault_walk qset rest (off - qset)
    else (some n, off)

/-- Outcome of the fault handler: the backing page (get_page called on
it), or the handler ends with its no-page value (the comment at
mmap.c:98-102 describes this as the SIGBUS outcome for holes and
end-of-device). -/
inductive FaultRes
| nopage
| page (p : Nat)
deriving DecidableEq

/-- scullp_vma_nopage (mmap.c:73-131): compute the device byte offset from
the faulting address and the mapping page offset (mmap.c:91); no page when
it is at or beyond the device size (mmap.c:94-96); shift to a page index
(mmap.c:103), walk the list (mmap.c:106-109); no page for a missing node,
NULL array or NULL slot (mmap.c:111-118); otherwise return the backing
page after incrementing its reference count with get_page
(mmap.c:120-125).  refcnt maps each page to its reference count. -/
def scullp_vma_nopage (PAGE_SHIFT : Nat) (dev : ScullpDev)
    (vaddr vstart pgoff : Nat) (refcnt : Nat → Nat) :
    FaultRes × (Nat → Nat) :=
  let offset := (vaddr - vstart) + (pgoff <<< PAGE_SHIFT)
  if offset ≥ dev.size then (.nopage, refcnt)
  else
    let offpg := offset >>> PAGE_SHIFT
    match scullp_fault_walk dev.qset dev.nodes offpg with
    | (none, _) => (.nopage, refcnt)
    | (some n, off) =>
      match n.data with
      | none => (.nopage, refcnt)
      | some arr =>
        match arr.getD off none with
        | none => (.nopage, refcnt)
        | some pageptr =>
          (.page pageptr,
           fun q => if q = pageptr then refcnt q + 1 else refcnt q)

theorem scullp_fault_walk_div_mod (qset : Nat) (hq : 0 < qset) :
    ∀ (nodes : List ScullpNode) (off : Nat),
      scullp_fault_walk qset nodes off
        = match nodes[off / qset]? with
          | some n => (some n, off % qset)
          | none => (none, off - qset * nodes.length) := by
  intro nodes
  induction nodes with
  | nil =>
    intro off
    simp [scullp_fault_walk]
  | cons n rest ih =>
    intro off
    simp only [scullp_fault_walk]
    split_ifs with h1
    · have hdiv : off / qset = (off - qset) / qset + 1 := by
        rw [Nat.div_eq]
        simp [hq, h1]
      have hmod : off % qset = (off - qset) % qset := by
        rw [Nat.mod_eq]
        simp [hq, h1]
      rw [ih (off - qset), hdiv, hmod]
      cases hres : rest[(off - qset) / qset]? with
      | some m => simp [List.getElem?_cons_succ, hres]
      | none =>
        simp only [List.getElem?_cons_succ, hres, List.length_cons]
        have hms : qset * (rest.length + 1) = qset * rest.length + qset := by
          ring
        have hsub : off - qset * (rest.length + 1)
            = off - qset - qset * rest.length := by
          omega
        rw [hsub]
    · have h1' : off < qset := by omega
      have hdiv : off / qset = 0 := Nat.div_eq_of_lt h1'
      have hmod : off % qset = off := Nat.mod_eq_of_lt h1'
      rw [hdiv, hmod]
      simp [List.getElem?_cons_zero]

/-- The lookup the fault walk performs, phrased through the index
decomposition page-index / qset (node) and page-index mod qset (slot). -/
def scullp_fault_lookup (dev : ScullpDev) (pg : Nat) : Option Nat :=
  (dev.nodes[pg / dev.qset]?).bind
    (fun n => n.data.bind (fun arr => arr.getD (pg % dev.qset) none))

/-- The fault handler, characterized through the index decomposition. -/
theorem scullp_vma_nopage_eq (PAGE_SHIFT : Nat) (dev : ScullpDev)
    (vaddr vstart pgoff : Nat) (refcnt : Nat → Nat) (hq : 0 < dev.qset) :
    scullp_vma_nopage PAGE_SHIFT dev vaddr vstart pgoff refcnt
      = (if (vaddr - vstart) + (pgoff <<< PAGE_SHIFT) ≥ dev.size then
           (.nopage, refcnt)
         else
           match scullp_fault_lookup dev
               (((vaddr - vstart) + (pgoff <<< PAGE_SHIFT)) >>> PAGE_SHIFT) with
           | none => (.nopage, refcnt)
           | some p =>
             (.page p, fun q => if q = p then refcnt q + 1 else refcnt q)) := by
  simp only [scullp_vma_nopage, scullp_fault_lookup]
  split_ifs with h
  · rfl
  · rw [scullp_fault_walk_div_mod dev.qset hq dev.nodes]
    cases dev.nodes[(((vaddr - vstart) + (pgoff <<< PAGE_SHIFT)) >>> PAGE_SHIFT) / dev.qset]? with
    | none => rfl
    | some n =>
      obtain ⟨ndata⟩ := n
      cases ndata with
      | none => rfl
      | some arr =>
        cases arr.getD
            ((((vaddr - vstart) + (pgoff <<< PAGE_SHIFT)) >>> PAGE_SHIFT)
              % dev.qset) none with
        | none => rfl
        | some p => rfl

/-- Claim C8: mapping a scullp device whose order is 0 is refused with
ENODEV; for a device with a positive qset, a fault whose device offset is
below the current size and whose page index resolves (through the walk,
which equals the page/qset, page-mod-qset decomposition) to an allocated
quantum returns that backing page with its reference count incremented,
while a fault at or beyond size, or into a hole, returns the no-page
(bus-error) outcome with every reference count untouched. -/
theorem scullp_mmap_fault_spec (PAGE_SHIFT : Nat) (dev : ScullpDev)
    (vaddr vstart pgoff : Nat) (refcnt : Nat → Nat) (hq : 0 < dev.qset) :
    (dev.order = 0 → scullp_mmap dev = .error .ENODEV)
  ∧ ((vaddr - vstart) + (pgoff <<< PAGE_SHIFT) ≥ dev.size →
      scullp_vma_nopage PAGE_SHIFT dev vaddr vstart pgoff refcnt
        = (.nopage, refcnt))
  ∧ ((vaddr - vstart) + (pgoff <<< PAGE_SHIFT) < dev.size →
      scullp_fault_lookup dev
          (((vaddr - vstart) + (pgoff <<< PAGE_SHIFT)) >>> PAGE_SHIFT) = none →
      scullp_vma_nopage PAGE_SHIFT dev vaddr vstart pgoff refcnt
        = (.nopage, refcnt))
  ∧ (∀ p, (vaddr - vstart) + (pgoff <<< PAGE_SHIFT) < dev.size →
      scullp_fault_lookup dev
          (((vaddr - vstart) + (pgoff <<< PAGE_SHIFT)) >>> PAGE_SHIFT) = some p →
      scullp_vma_nopage PAGE_SHIFT dev vaddr vstart pgoff refcnt
        = (.page p, fun q => if q = p then refcnt q + 1 else refcnt q)) := by
  have heq := scullp_vma_nopage_eq PAGE_SHIFT dev vaddr vstart pgoff refcnt hq
  refine ⟨?_, ?_, ?_, ?_⟩
  · intro h
    simp [scullp_mmap, h]
  · intro h
    rw [heq, if_pos h]
  · intro hlt hnone
    rw [heq, if_neg (by omega), hnone]
  · intro p hlt hsome
    rw [heq, if_neg (by omega), hsome]

/-- A concrete scullp device for the fault witness: two nodes, the second
holding page 99 in its only slot, size two pages of order 0. -/
def scullpDevC : ScullpDev :=
  ⟨[⟨some [some 5]⟩, ⟨some [some 99]⟩], 1, 1, 8192, 0⟩

theorem scullp_mmap_fault_spec_witness :
    scullp_vma_nopage 12 scullpDevC 4096 0 0 (fun _ => 0)
      = (.page 99, fun q => if q = 99 then (fun _ => 0) q + 1
                            else (fun _ => 0) q) :=
  (scullp_mmap_fault_spec 12 scullpDevC 4096 0 0 (fun _ => 0)
      (by decide)).2.2.2 99 (by decide) (by decide)

/-! ## The short device (src/short/short.c) -/

/-- short_incr_bp (short.c:344-349): advance a buffer index by delta and
wrap to the buffer start when the result reaches or passes the end of the
page-sized buffer. -/
def short_incr_bp (short_buffer PAGE_SIZE index delta : Nat) : Nat :=
  let new := index + delta
  if new ≥ short_buffer + PAGE_SIZE then short_buffer else new

/-- The transfer-size computation of short_i_read (short.c:383-391),
written as in the source: count0 is the int difference
short_head - short_tail (line 383); the wrap test at line 385 reads
if (count < 0), where count has the unsigned type size_t, so the branch
assigning the distance to the wrap point is never taken; the clamp at
line 389 compares the int count0 against the size_t count, which converts
count0 to size_t, adding 2 to the 64th power when it is negative. -/
def short_i_read_count (short_buffer PAGE_SIZE short_head short_tail
    count : Nat) : Nat :=
  let count0 : Int := (short_head : Int) - (short_tail : Int)
  let count0 : Int :=
    if (count : Int) < 0 then (short_buffer : Int) + PAGE_SIZE - short_tail
    else count0
  let count0u : Int := count0 % 18446744073709551616
  if count0u < (count : Int) then count0u.toNat else count

/-- Claim C9: the claim states the returned byte count is the contiguous
run bounded by the write cursor, or by the page-sized wrap point when the
buffer has wrapped, clamped to the requested count.  The code tests
count < 0 (short.c:385) instead of count0 < 0, so the wrap clamp is dead,
and in the wrapped state the negative count0 also defeats the line-389
clamp through the unsigned conversion: with the buffer at 4096, page size
4096, write cursor 4112, read cursor 8176 (16 readable bytes up to the
wrap point) and 100 requested bytes, the code transfers 100 bytes where
the claim requires min(100, 16) = 16 (first two conjuncts).  The
unwrapped case does satisfy the claim (third conjunct), and the read
cursor advance wraps at the page bound as claimed (fourth conjunct). -/
theorem short_i_read_wrapped_count_bug :
    short_i_read_count 4096 4096 4112 8176 100 = 100
  ∧ (100 : Nat) ≠ min 100 (4096 + 4096 - 8176)
  ∧ (∀ pagesize buffer head tail count : Nat,
      tail < head → head < 18446744073709551616 →
      short_i_read_count buffer pagesize head tail count
        = min count (head - tail))
  ∧ short_incr_bp 4096 4096 8176 16 = 4096 := by
  refine ⟨by decide, by decide, ?_, by decide⟩
  intro pagesize buffer head tail count hth hsz
  have hc0 : ¬((count : Int) < 0) := by
    simp [Int.not_lt]
  simp only [short_i_read_count]
  rw [if_neg hc0]
  have hpos : (0 : Int) ≤ (head : Int) - (tail : Int) := by
    omega
  have hlt : (head : Int) - (tail : Int) < 18446744073709551616 := by
    omega
  rw [Int.emod_eq_of_lt hpos hlt]
  split_ifs with h
  · have : ((head : Int) - (tail : Int)).toNat = head - tail := by omega
    rw [this]
    omega
  · omega

theorem short_i_read_wrapped_count_bug_witness :
    short_i_read_count 4096 4096 4100 4098 5 = min 5 (4100 - 4098) :=
  short_i_read_wrapped_count_bug.2.2.1 4096 4096 4100 4098 5
    (by decide) (by decide)

/-- Exit report of the short port and memory transfer paths: the outcome,
whether the kernel scratch buffer was allocated, and whether it was freed
before the function returned. -/
structure ShortExit where
  outcome : IoctlRet
  allocated : Bool
  freed : Bool
deriving DecidableEq

/-- do_short_write (short.c:242-310): allocate the scratch buffer,
returning ENOMEM when kmalloc fails (short.c:257-260, nothing allocated);
copy the caller buffer in, returning EFAULT at short.c:263-265 without
reaching the kfree at short.c:308; otherwise decode the mode from minor
bits 4-6 with the use_mem override (short.c:249-273), drain the buffer to
the hardware, EINVAL for an unknown mode (short.c:303-305), and in all of
those cases reach kfree (short.c:308) before returning.  Errors are
returned as negative errno, successes as the full count. -/
def do_short_write (kmallocOk copyOk use_mem : Bool) (minor count : Nat) :
    ShortExit :=
  if ¬kmallocOk then ⟨.err .ENOMEM, false, false⟩
  else if ¬copyOk then ⟨.err .EFAULT, true, false⟩
  else
    let mode := if use_mem then 3 else (minor &&& 112) >>> 4
    if mode = 1 ∨ mode = 2 ∨ mode = 0 ∨ mode = 3 then ⟨.ret count, true, true⟩
    else ⟨.err .EINVAL, true, true⟩

/-- do_short_read (short.c:158-230): allocate the scratch buffer,
returning ENOMEM when kmalloc fails (short.c:186-188); decode the mode
(short.c:173-196), fill the buffer from the hardware, EINVAL for a mode
other than string, default or memory (short.c:218-220); copy out only
when the running return value is positive, turning a copy failure into
EFAULT (short.c:224-226); and on every one of those paths reach the kfree
at short.c:228 before returning. -/
def do_short_read (kmallocOk copyOk use_mem : Bool) (minor count : Nat) :
    ShortExit :=
  if ¬kmallocOk then ⟨.err .ENOMEM, false, false⟩
  else
    let mode := if use_mem then 3 else (minor &&& 112) >>> 4
    if mode = 2 ∨ mode = 0 ∨ mode = 3 then
      if 0 < count ∧ ¬copyOk then ⟨.err .EFAULT, true, true⟩
      else ⟨.ret count, true, true⟩
    else ⟨.err .EINVAL, true, true⟩

/-- Claim C10 (implicit): when the copy from user space fails,
do_short_write returns EFAULT with the scratch buffer allocated but not
freed; on every other exit after a successful allocation (success or
invalid mode) the buffer is freed before returning; and do_short_read
frees its scratch buffer on every exit path after a successful
allocation, copy failures included. -/
theorem do_short_write_leak_on_efault (use_mem copyOk : Bool)
    (minor count : Nat) :
    do_short_write true false use_mem minor count = ⟨.err .EFAULT, true, false⟩
  ∧ (do_short_write true true use_mem minor count).freed = true
  ∧ (do_short_write true true use_mem minor count).allocated = true
  ∧ (do_short_read true copyOk use_mem minor count).freed = true := by
  refine ⟨rfl, ?_, ?_, ?_⟩
  · simp only [do_short_write]
    split_ifs <;> simp_all
  · simp only [do_short_write]
    split_ifs <;> simp_all
  · simp only [do_short_read]
    split_ifs <;> simp_all

end Ldd
